import Mathlib

/-!
Shallow embedding of the LED-ring animation controller
(led_controller.py, with callers in led_visualizer.py and led_interactive.py).

Modelling conventions:
- Python floats are modelled as real numbers; a color is a triple of reals.
- Python ints are modelled as integers; the step argument of the two
  sequence-frame dispatchers is modelled as a rational, because callers pass
  both integer steps and fractional brightness ratios to the same parameter.
  Branches that feed the step into a list index or a range bound require an
  integer there (Python raises TypeError otherwise); this is modelled by the
  den = 1 test guarding those branches.
- Python list item assignment, which raises IndexError when the index is out
  of range, is modelled by setChecked returning an Option; frame operations
  whose body contains such an assignment therefore return Option (List Color).
- The % operator on integers is modelled by Int.emod, which agrees with
  Python for a positive modulus.  All claims below constrain the ring size to
  be positive where the modulus is taken.
- np.random.random() in the success frame is modelled by an explicit draws
  argument giving the i-th sample.
-/

noncomputable section

/-- A color is a triple of channel intensities (Python floats modelled as reals). -/
abbrev Color : Type := ℝ × ℝ × ℝ

/-- The black color (0, 0, 0). -/
def blackColor : Color := (0, 0, 0)

/-- np.linspace a b n: n evenly spaced samples from a to b inclusive
    (sample i is a + (b - a) * i / (n - 1)). -/
def linspace (a b : ℝ) (n : ℕ) : List ℝ :=
  (List.range n).map (fun i => a + (b - a) * (i : ℝ) / ((n : ℝ) - 1))

/-- Python list item assignment l[i] = c: fails (IndexError) when the index
    is out of range, otherwise replaces the i-th element. -/
def setChecked {α : Type} (l : List α) (i : ℕ) (c : α) : Option (List α) :=
  if i < l.length then some (l.set i c) else none

/-- The state held by LEDController (led_controller.py lines 4-12):
    ring size, current mode string, power flag, and the two precomputed
    easing tails. -/
structure LEDController where
  num_leds : ℤ
  current_mode : String
  is_powered : Bool
  loading_tail : List ℝ
  spin_tail : List ℝ

/-- Body of LEDController.__init__ (led_controller.py lines 5-12):
    num_leds is stored unchecked, mode starts at 'off', power off, and the
    two tails are pow(x, 0.5) over np.linspace(1, 0, 8) resp. (1, 0, 6). -/
def mkController (num_leds : ℤ) : LEDController :=
  { num_leds := num_leds
    current_mode := "off"
    is_powered := false
    loading_tail := (linspace 1 0 8).map Real.sqrt
    spin_tail := (linspace 1 0 6).map Real.sqrt }

/-- Constructing the controller as a fallible call.  The source __init__
    performs no validation and contains no raise, so construction always
    succeeds, whatever the requested ring size. -/
def LEDController.init (num_leds : ℤ) : Option LEDController :=
  some (mkController num_leds)

/-- _get_black_array (led_controller.py lines 14-17): the all-black frame of
    length num_leds (the lru_cache is semantically transparent; Python list
    multiplication by a non-positive count yields the empty list, matching
    toNat). -/
def black_array (c : LEDController) : List Color :=
  List.replicate c.num_leds.toNat blackColor

/-- get_loading_frame (led_controller.py lines 19-25): start from the black
    array, then for (t, brightness) in enumerate(loading_tail) set cell
    (position - t) % num_leds to (0 * b, 0.5 * b, 1.0 * b). -/
def get_loading_frame (c : LEDController) (position : ℤ) : List Color :=
  c.loading_tail.enum.foldl
    (fun colors tb =>
      colors.set ((position - (tb.1 : ℤ)) % c.num_leds).toNat
        (0 * tb.2, 0.5 * tb.2, 1.0 * tb.2))
    (black_array c)

/-- get_tracking_frame (led_controller.py lines 27-29): uniform gray at the
    given brightness. -/
def get_tracking_frame (c : LEDController) (brightness : ℝ) : List Color :=
  List.replicate c.num_leds.toNat (brightness, brightness, brightness)

/-- get_error_frame (led_controller.py lines 31-33): uniform red at the given
    brightness. -/
def get_error_frame (c : LEDController) (brightness : ℝ) : List Color :=
  List.replicate c.num_leds.toNat (brightness, 0, 0)

open Classical in
/-- get_success_frame (led_controller.py lines 35-39): per cell, if the i-th
    random draw is below 0.2 use the boosted sparkle green, else the base
    green. -/
def get_success_frame (c : LEDController) (brightness : ℝ) (draws : ℕ → ℝ) :
    List Color :=
  (List.range c.num_leds.toNat).map
    (fun i =>
      if draws i < 0.2 then (0, min 1.0 (brightness + 0.3), 0)
      else (0, brightness, 0))

/-- Circular distance as computed inline in the success branch of
    get_boot_sequence_frame (led_controller.py lines 59-60):
    min((a - b) % n, (b - a) % n). -/
def circular_distance (n a b : ℤ) : ℤ :=
  min ((a - b) % n) ((b - a) % n)

/-- get_boot_sequence_frame (led_controller.py lines 41-67).  Dispatch on the
    phase string; any unknown phase falls through to the black array.  The
    fill branch assigns colors[i] for i in range(step + 1) with no modulus, so
    it can fail with IndexError; the spin branch wraps its index with
    % num_leds; the success branch writes a circular green wave; pulse and
    final replace the whole frame. -/
def get_boot_sequence_frame (c : LEDController) (phase : String) (step : ℚ) :
    Option (List Color) :=
  if phase = "fill" then
    if step.den = 1 then
      (List.range (step.num + 1).toNat).foldlM
        (fun cs i => setChecked cs i ((0 : ℝ), 0.2, 0.4)) (black_array c)
    else none
  else if phase = "pulse" then
    some (List.replicate c.num_leds.toNat
      ((0 : ℝ), 0.2 * (step : ℝ), 0.4 * (step : ℝ)))
  else if phase = "spin" then
    if step.den = 1 then
      c.loading_tail.enum.foldlM
        (fun cs tb =>
          setChecked cs ((step.num + (tb.1 : ℤ)) % c.num_leds).toNat
            (0 * tb.2, 0.5 * tb.2, 1.0 * tb.2))
        (black_array c)
    else none
  else if phase = "success" then
    if step.den = 1 then
      some ((List.range c.num_leds.toNat).foldl
        (fun cs (i : ℕ) =>
          if circular_distance c.num_leds (i : ℤ) (step.num % c.num_leds) < 8 then
            cs.set i
              (0, 1 - (circular_distance c.num_leds (i : ℤ) (step.num % c.num_leds) : ℝ) / 8, 0)
          else cs)
        (black_array c))
    else none
  else if phase = "final" then
    some (List.replicate c.num_leds.toNat ((1.0 : ℝ), 1.0, 1.0))
  else
    some (black_array c)

/-- get_shutdown_sequence_frame (led_controller.py lines 69-82).  Only the
    phases 'spin' (red comet on the loading tail) and 'fade' (uniform dim red
    scaled by step) are dispatched; every other phase, including the 'pulse'
    and 'wipe' phases requested by led_visualizer.py, falls through to the
    black array. -/
def get_shutdown_sequence_frame (c : LEDController) (phase : String) (step : ℚ) :
    Option (List Color) :=
  if phase = "spin" then
    if step.den = 1 then
      c.loading_tail.enum.foldlM
        (fun cs tb =>
          setChecked cs ((step.num + (tb.1 : ℤ)) % c.num_leds).toNat
            (tb.2, 0, 0))
        (black_array c)
    else none
  else if phase = "fade" then
    some (List.replicate c.num_leds.toNat ((step : ℝ) * 0.3, 0, 0))
  else
    some (black_array c)

/-- set_mode (led_controller.py lines 84-86): unconditionally record the
    requested mode string. -/
def set_mode (c : LEDController) (mode : String) : LEDController :=
  { c with current_mode := mode }

/-- power_on (led_controller.py lines 88-90). -/
def power_on (c : LEDController) : LEDController :=
  { c with is_powered := true }

/-- power_off (led_controller.py lines 92-94). -/
def power_off (c : LEDController) : LEDController :=
  { c with is_powered := false }

/-- The t-th loading-tail sample: sqrt of the t-th entry of linspace(1,0,8). -/
def loadingTailVal (t : ℕ) : ℝ :=
  Real.sqrt (1 + (0 - 1) * (t : ℝ) / ((8 : ℝ) - 1))

/-- The t-th spin-tail sample: sqrt of the t-th entry of linspace(1,0,6). -/
def spinTailVal (t : ℕ) : ℝ :=
  Real.sqrt (1 + (0 - 1) * (t : ℝ) / ((6 : ℝ) - 1))

/-- The enumerated loading tail, written out: pairs of offset and sample. -/
def loadingTailEnum : List (ℕ × ℝ) :=
  [(0, loadingTailVal 0), (1, loadingTailVal 1), (2, loadingTailVal 2),
   (3, loadingTailVal 3), (4, loadingTailVal 4), (5, loadingTailVal 5),
   (6, loadingTailVal 6), (7, loadingTailVal 7)]

/-- The comet fold shared by the loading frame and the two spin branches:
    for each enumerated tail sample, write the colored sample at the wrapped
    index f t into the black frame. -/
def cometFold (N : ℤ) (f : ℕ → ℤ) (g : ℝ → Color) : List Color :=
  loadingTailEnum.foldl
    (fun colors (tb : ℕ × ℝ) => colors.set ((f tb.1) % N).toNat (g tb.2))
    (List.replicate N.toNat blackColor)

/-- The error kinds named by the specification (section 7). -/
inductive LEDError where
  | invalidConfiguration
  | invalidTransition
deriving DecidableEq

/-- set_mode as a fallible call, for comparison with the specified
    selectMode contract: the source body is a bare assignment with no check
    and no raise, so the call always succeeds. -/
def set_modeE (c : LEDController) (mode : String) : Except LEDError LEDController :=
  .ok (set_mode c mode)

end

/-! General lemmas about folds of (checked) list writes, used to reason about
the frame constructions above. -/

section FoldLemmas

variable {γ : Type} {α : Type}

/-- Folding any length-preserving step function preserves the list length. -/
theorem foldl_length_invariant (l : List γ) (f : List α → γ → List α)
    (hf : ∀ cs x, (f cs x).length = cs.length) (init : List α) :
    (l.foldl f init).length = init.length := by
  induction l generalizing init with
  | nil => rfl
  | cons a t ih => rw [List.foldl_cons, ih]; exact hf init a

/-- A fold of set operations leaves every index that is never written. -/
theorem foldl_set_get_notMem (l : List γ) (ix : γ → ℕ) (v : γ → α)
    (init : List α) (j : ℕ) (h : ∀ x ∈ l, ix x ≠ j) :
    (l.foldl (fun cs x => cs.set (ix x) (v x)) init)[j]? = init[j]? := by
  induction l generalizing init with
  | nil => rfl
  | cons a t ih =>
    rw [List.foldl_cons, ih _ (fun x hx => h x (List.mem_cons_of_mem _ hx))]
    exact List.getElem?_set_ne (h a (List.mem_cons_self a t))

/-- A fold of set operations stores the value of an element whose write index
    no other element of the fold list shares. -/
theorem foldl_set_get_uniq (l : List γ) (ix : γ → ℕ) (v : γ → α)
    (init : List α) (x : γ) (hx : x ∈ l)
    (huniq : ∀ y ∈ l, ix y = ix x → y = x) (hlt : ix x < init.length) :
    (l.foldl (fun cs y => cs.set (ix y) (v y)) init)[ix x]? = some (v x) := by
  induction l generalizing init with
  | nil => cases hx
  | cons a t ih =>
    rw [List.foldl_cons]
    by_cases hmem : x ∈ t
    · exact ih _ hmem (fun y hy => huniq y (List.mem_cons_of_mem _ hy))
        (by rw [List.length_set]; exact hlt)
    · have hax : a = x := by
        rcases List.mem_cons.mp hx with h | h
        · exact h.symm
        · exact absurd h hmem
      subst hax
      have hnone : ∀ y ∈ t, ix y ≠ ix a := by
        intro y hy hixy
        exact hmem ((huniq y (List.mem_cons_of_mem _ hy) hixy) ▸ hy)
      rw [foldl_set_get_notMem t ix v _ _ hnone]
      exact List.getElem?_set_eq_of_lt _ hlt

/-- A fold whose every step leaves index j untouched leaves index j
    untouched. -/
theorem foldl_get_invariant (l : List γ) (f : List α → γ → List α) (j : ℕ)
    (init : List α) (hf : ∀ cs x, x ∈ l → (f cs x)[j]? = cs[j]?) :
    (l.foldl f init)[j]? = init[j]? := by
  induction l generalizing init with
  | nil => rfl
  | cons a t ih =>
    rw [List.foldl_cons,
      ih _ (fun cs x hx => hf cs x (List.mem_cons_of_mem _ hx))]
    exact hf init a (List.mem_cons_self a t)

/-- When every write is in range, the fallible fold of checked sets succeeds
    and equals the pure fold of plain sets. -/
theorem foldlM_setChecked_eq_foldl (l : List γ) (ix : γ → ℕ) (v : γ → α)
    (init : List α) (h : ∀ x ∈ l, ix x < init.length) :
    (l.foldlM (fun cs x => setChecked cs (ix x) (v x)) init)
      = some (l.foldl (fun cs x => cs.set (ix x) (v x)) init) := by
  induction l generalizing init with
  | nil => rfl
  | cons a t ih =>
    rw [List.foldlM_cons, List.foldl_cons]
    have ha : setChecked init (ix a) (v a) = some (init.set (ix a) (v a)) :=
      if_pos (h a (List.mem_cons_self a t))
    rw [ha]
    show (t.foldlM _ _) = _
    exact ih _ (fun x hx => by
      rw [List.length_set]; exact h x (List.mem_cons_of_mem _ hx))

/-- A successful fallible fold of checked sets preserves the list length. -/
theorem foldlM_setChecked_length (l : List γ) (ix : γ → ℕ) (v : γ → α)
    (init : List α) (r : List α)
    (h : l.foldlM (fun cs x => setChecked cs (ix x) (v x)) init = some r) :
    r.length = init.length := by
  induction l generalizing init with
  | nil =>
    simp only [List.foldlM_nil] at h
    cases h
    rfl
  | cons a t ih =>
    rw [List.foldlM_cons] at h
    unfold setChecked at h
    by_cases hlt : ix a < init.length
    · rw [if_pos hlt] at h
      show _ = init.length
      rw [← List.length_set init (ix a) (v a)]
      exact ih _ h
    · rw [if_neg hlt] at h
      cases h

end FoldLemmas

section RangeFoldLemmas

variable {α : Type}

/-- The fill loop writes the constant color at the indices 0..k-1; when k is
    within the frame length it succeeds and equals the pure fold. -/
theorem range_foldlM_setChecked_eq (v : α) (k : ℕ) (init : List α)
    (h : k ≤ init.length) :
    (List.range k).foldlM (fun cs i => setChecked cs i v) init
      = some ((List.range k).foldl (fun cs i => cs.set i v) init) :=
  foldlM_setChecked_eq_foldl (List.range k) (fun i => i) (fun _ => v) init
    (fun x hx => lt_of_lt_of_le (List.mem_range.mp hx) h)

/-- The fill loop fails as soon as the write count exceeds the frame length
    (the write at index length is out of range). -/
theorem range_foldlM_setChecked_none (v : α) (k : ℕ) (init : List α)
    (hk : init.length < k) :
    (List.range k).foldlM (fun cs i => setChecked cs i v) init = none := by
  induction k with
  | zero => omega
  | succ k ih =>
    rw [List.range_succ, List.foldlM_append]
    rcases Nat.lt_or_ge init.length k with h | h
    · rw [ih h]; rfl
    · have hlen : init.length = k := by omega
      rw [range_foldlM_setChecked_eq v k init (le_of_eq hlen.symm)]
      have hfl : ((List.range k).foldl (fun cs i => cs.set i v) init).length = k := by
        rw [foldl_length_invariant]
        · exact hlen
        · intro cs x; exact List.length_set cs _ _
      show ([k].foldlM (fun cs i => setChecked cs i v) _) = none
      rw [List.foldlM_cons]
      have : setChecked ((List.range k).foldl (fun cs i => cs.set i v) init) k v = none := by
        unfold setChecked
        rw [if_neg (by omega)]
      rw [this]
      rfl

/-- The fill loop succeeds exactly when the write count is at most the frame
    length. -/
theorem range_foldlM_setChecked_isSome_iff (v : α) (k : ℕ) (init : List α) :
    ((List.range k).foldlM (fun cs i => setChecked cs i v) init).isSome
      ↔ k ≤ init.length := by
  rcases le_or_lt k init.length with h | h
  · rw [range_foldlM_setChecked_eq v k init h]
    simp [h]
  · rw [range_foldlM_setChecked_none v k init h]
    simp
    omega

/-- Cells written by the fill loop hold the constant color. -/
theorem range_foldl_set_get (v : α) (k : ℕ) (init : List α) (i : ℕ)
    (hik : i < k) (hilen : i < init.length) :
    ((List.range k).foldl (fun cs i => cs.set i v) init)[i]? = some v :=
  foldl_set_get_uniq (List.range k) (fun i => i) (fun _ => v) init i
    (List.mem_range.mpr hik) (fun _ _ hy => hy) hilen

/-- Cells beyond the fill loop's write count are untouched. -/
theorem range_foldl_set_get_ge (v : α) (k : ℕ) (init : List α) (j : ℕ)
    (hj : k ≤ j) :
    ((List.range k).foldl (fun cs i => cs.set i v) init)[j]? = init[j]? :=
  foldl_set_get_notMem (List.range k) (fun i => i) (fun _ => v) init j
    (fun x hx => by show x ≠ j; have := List.mem_range.mp hx; omega)

end RangeFoldLemmas

/-! Arithmetic helpers about wraparound indexing. -/

/-- Indices reduced modulo a positive ring size land strictly below the ring
    size. -/
theorem emod_toNat_lt (N : ℤ) (hN : 0 < N) (x : ℤ) : (x % N).toNat < N.toNat := by
  have h1 := Int.emod_lt_of_pos x hN
  have h2 := Int.emod_nonneg x (by omega : N ≠ 0)
  omega

/-- Wraparound indexing is injective on arguments less than one ring apart. -/
theorem emod_toNat_inj (N : ℤ) (hN : 0 < N) {x y : ℤ}
    (hxy : |x - y| < N) (h : (x % N).toNat = (y % N).toNat) : x = y := by
  have hN0 : N ≠ 0 := by omega
  have h1 := Int.emod_nonneg x hN0
  have h2 := Int.emod_nonneg y hN0
  have he : x % N = y % N := by omega
  have hd : N ∣ (x - y) := by
    have h3 : (x - y) % N = 0 := by
      rw [Int.sub_emod, he, sub_self, Int.zero_emod]
    exact Int.dvd_of_emod_eq_zero h3
  have := Int.eq_zero_of_abs_lt_dvd hd hxy
  omega

/-! The easing tails.  loading_tail consists of the eight values
loadingTailVal 0, ..., loadingTailVal 7. -/

section TailLemmas

/-- The t-th loading-tail sample in closed form. -/
theorem loadingTailVal_eq (t : ℕ) :
    loadingTailVal t = Real.sqrt ((7 - (t : ℝ)) / 7) := by
  unfold loadingTailVal
  congr 1
  ring

/-- All but the last loading-tail sample are strictly positive. -/
theorem loadingTailVal_pos {t : ℕ} (ht : t < 7) : 0 < loadingTailVal t := by
  rw [loadingTailVal_eq]
  apply Real.sqrt_pos.mpr
  have hc : (t : ℝ) < 7 := by exact_mod_cast ht
  apply div_pos (by linarith) (by norm_num)

/-- The first loading-tail sample is 1. -/
theorem loadingTailVal_zero : loadingTailVal 0 = 1 := by
  rw [loadingTailVal_eq]
  norm_num

/-- The last loading-tail sample is 0. -/
theorem loadingTailVal_seven : loadingTailVal 7 = 0 := by
  rw [loadingTailVal_eq]
  norm_num

/-- The loading-tail samples are non-increasing. -/
theorem loadingTailVal_anti {t k : ℕ} (htk : t ≤ k) :
    loadingTailVal k ≤ loadingTailVal t := by
  rw [loadingTailVal_eq, loadingTailVal_eq]
  apply Real.sqrt_le_sqrt
  have hc : (t : ℝ) ≤ (k : ℝ) := by exact_mod_cast htk
  exact (div_le_div_iff_of_pos_right (by norm_num)).mpr (by linarith)

theorem loading_tail_enum_eq :
    ((linspace 1 0 8).map Real.sqrt).enum = loadingTailEnum := by
  have h : List.range 8 = [0, 1, 2, 3, 4, 5, 6, 7] := rfl
  simp [linspace, h, loadingTailVal, loadingTailEnum, List.enum, List.enumFrom]

/-- The loading tail, written out sample by sample. -/
theorem loading_tail_list_eq :
    (linspace 1 0 8).map Real.sqrt
      = [loadingTailVal 0, loadingTailVal 1, loadingTailVal 2,
         loadingTailVal 3, loadingTailVal 4, loadingTailVal 5,
         loadingTailVal 6, loadingTailVal 7] := by
  have h : List.range 8 = [0, 1, 2, 3, 4, 5, 6, 7] := rfl
  simp [linspace, h, loadingTailVal]

/-- The t-th spin-tail sample in closed form. -/
theorem spinTailVal_eq (t : ℕ) :
    spinTailVal t = Real.sqrt ((5 - (t : ℝ)) / 5) := by
  unfold spinTailVal
  congr 1
  ring

/-- The first spin-tail sample is 1. -/
theorem spinTailVal_zero : spinTailVal 0 = 1 := by
  rw [spinTailVal_eq]
  norm_num

/-- The last spin-tail sample is 0. -/
theorem spinTailVal_five : spinTailVal 5 = 0 := by
  rw [spinTailVal_eq]
  norm_num

/-- The spin-tail samples are non-increasing. -/
theorem spinTailVal_anti {t k : ℕ} (htk : t ≤ k) :
    spinTailVal k ≤ spinTailVal t := by
  rw [spinTailVal_eq, spinTailVal_eq]
  apply Real.sqrt_le_sqrt
  have hc : (t : ℝ) ≤ (k : ℝ) := by exact_mod_cast htk
  exact (div_le_div_iff_of_pos_right (by norm_num)).mpr (by linarith)

/-- The spin tail, written out sample by sample. -/
theorem spin_tail_list_eq :
    (linspace 1 0 6).map Real.sqrt
      = [spinTailVal 0, spinTailVal 1, spinTailVal 2,
         spinTailVal 3, spinTailVal 4, spinTailVal 5] := by
  have h : List.range 6 = [0, 1, 2, 3, 4, 5] := rfl
  simp [linspace, h, spinTailVal]

end TailLemmas

/-! Structure of the loading frame. -/

section CometFoldLemmas

/-- The comet fold has one cell per LED. -/
theorem cometFold_length (N : ℤ) (f : ℕ → ℤ) (g : ℝ → Color) :
    (cometFold N f g).length = N.toNat := by
  unfold cometFold
  rw [foldl_length_invariant]
  · simp
  · intro cs x; exact List.length_set cs _ _

/-- When the eight wrapped write indices are distinct, the cell at write
    index t of the comet fold holds the colored t-th tail sample. -/
theorem cometFold_written (N : ℤ) (hN : 0 < N) (f : ℕ → ℤ)
    (hinj : ∀ a b : ℕ, a < 8 → b < 8 →
      ((f a) % N).toNat = ((f b) % N).toNat → a = b)
    (g : ℝ → Color) (t : ℕ) (ht : t < 8) :
    (cometFold N f g)[((f t) % N).toNat]? = some (g (loadingTailVal t)) := by
  unfold cometFold
  refine foldl_set_get_uniq _ _ _ _ (t, loadingTailVal t) ?_ ?_ ?_
  · interval_cases t <;> simp [loadingTailEnum]
  · intro y hy hixy
    simp only [loadingTailEnum, List.mem_cons, List.not_mem_nil,
      or_false] at hy
    rcases hy with rfl | rfl | rfl | rfl | rfl | rfl | rfl | rfl <;>
      (have hyx := hinj _ t (by norm_num) ht hixy; subst hyx; rfl)
  · simp only [List.length_replicate]
    exact emod_toNat_lt N hN _

/-- Cells at no wrapped write index of the comet fold stay black. -/
theorem cometFold_unwritten (N : ℤ) (f : ℕ → ℤ) (g : ℝ → Color) (j : ℕ)
    (hj : j < N.toNat) (h : ∀ t : ℕ, t < 8 → j ≠ ((f t) % N).toNat) :
    (cometFold N f g)[j]? = some blackColor := by
  unfold cometFold
  rw [foldl_get_invariant]
  · exact List.getElem?_replicate_of_lt hj
  · intro cs x hx
    simp only [loadingTailEnum, List.mem_cons, List.not_mem_nil,
      or_false] at hx
    rcases hx with rfl | rfl | rfl | rfl | rfl | rfl | rfl | rfl <;>
      exact List.getElem?_set_ne (Ne.symm (h _ (by norm_num)))

/-- Write indices of the backward comet (base - offset) are distinct on rings
    of at least the tail length. -/
theorem sub_comet_inj (N : ℤ) (hN8 : 8 ≤ N) (p : ℤ) :
    ∀ a b : ℕ, a < 8 → b < 8 →
      (((p - (a : ℤ)) % N)).toNat = (((p - (b : ℤ)) % N)).toNat → a = b := by
  intro a b ha hb h
  have := emod_toNat_inj N (by omega)
    (by rw [abs_lt]; constructor <;> (push_cast; omega)) h
  omega

end CometFoldLemmas

section LoadingFrameLemmas

/-- The loading frame is a backward comet fold over the black array. -/
theorem loading_frame_unfold (N : ℤ) (p : ℤ) :
    get_loading_frame (mkController N) p
      = cometFold N (fun u => p - (u : ℤ))
          (fun b => (0 * b, 0.5 * b, 1.0 * b)) := by
  unfold get_loading_frame black_array cometFold
  rw [show (mkController N).loading_tail = (linspace 1 0 8).map Real.sqrt from rfl,
    loading_tail_enum_eq]
  rfl

/-- The loading frame always has one cell per LED. -/
theorem loading_frame_length (N : ℤ) (p : ℤ) :
    (get_loading_frame (mkController N) p).length = N.toNat := by
  rw [loading_frame_unfold]
  exact cometFold_length N _ _

/-- On a ring of at least the tail length, the cell at comet offset t holds
    the cyan-blue color scaled by the t-th tail sample. -/
theorem loading_frame_written (N : ℤ) (hN8 : 8 ≤ N) (p : ℤ) {t : ℕ}
    (ht : t < 8) :
    (get_loading_frame (mkController N) p)[((p - (t : ℤ)) % N).toNat]?
      = some (0 * loadingTailVal t, 0.5 * loadingTailVal t,
          1.0 * loadingTailVal t) := by
  rw [loading_frame_unfold]
  exact cometFold_written N (by omega) (fun u => p - (u : ℤ))
    (sub_comet_inj N hN8 p) (fun b => (0 * b, 0.5 * b, 1.0 * b)) t ht

/-- Cells outside the comet of the loading frame stay black. -/
theorem loading_frame_unwritten (N : ℤ) (hN : 0 < N) (p : ℤ) (j : ℕ)
    (hj : j < N.toNat) (h : ∀ t : ℕ, t < 8 → j ≠ ((p - (t : ℤ)) % N).toNat) :
    (get_loading_frame (mkController N) p)[j]? = some blackColor := by
  rw [loading_frame_unfold]
  exact cometFold_unwritten N (fun u => p - (u : ℤ))
    (fun b => (0 * b, 0.5 * b, 1.0 * b)) j hj h

/-- Reading a cell through getD agrees with the optional read. -/
theorem getD_eq_getElem?_getD (l : List Color) (i : ℕ) :
    l.getD i blackColor = (l[i]?).getD blackColor := by
  rw [List.getD_eq_getD_get?, List.get?_eq_getElem?]

/-- On a ring of at least the tail length, the non-black cells of the loading
    frame are exactly the comet cells at offsets 0..6; the offset-7 cell is
    written with the zero tail sample and stays black. -/
theorem loading_frame_nonblack_set (N : ℤ) (hN8 : 8 ≤ N) (p : ℤ) :
    {i : ℕ | (get_loading_frame (mkController N) p).getD i blackColor ≠ blackColor}
      = (fun t : ℕ => ((p - (t : ℤ)) % N).toNat) '' {t : ℕ | t < 7} := by
  have hN : 0 < N := by omega
  ext i
  simp only [Set.mem_setOf_eq, Set.mem_image]
  constructor
  · intro hi
    by_cases hlen : i < N.toNat
    · by_cases hw : ∀ t : ℕ, t < 8 → i ≠ ((p - (t : ℤ)) % N).toNat
      · exact absurd (by
          rw [getD_eq_getElem?_getD, loading_frame_unwritten N hN p i hlen hw]
          rfl) hi
      · push_neg at hw
        obtain ⟨t, ht8, hti⟩ := hw
        rcases Nat.lt_or_ge t 7 with ht7 | ht7
        · exact ⟨t, ht7, hti.symm⟩
        · have ht7' : t = 7 := by omega
          subst ht7'
          exfalso
          apply hi
          have hv := loading_frame_written N hN8 p (by norm_num : (7 : ℕ) < 8)
          rw [getD_eq_getElem?_getD, hti, hv]
          rw [loadingTailVal_seven]
          show ((0 * 0, 0.5 * 0, 1.0 * 0) : Color) = blackColor
          unfold blackColor
          norm_num
    · exfalso
      apply hi
      rw [getD_eq_getElem?_getD]
      have hnone : (get_loading_frame (mkController N) p)[i]? = none := by
        apply List.getElem?_eq_none
        rw [loading_frame_length]
        omega
      rw [hnone]
      rfl
  · rintro ⟨t, ht7, rfl⟩
    have hv := loading_frame_written N hN8 p (by omega : t < 8)
    rw [getD_eq_getElem?_getD, hv]
    have hpos := loadingTailVal_pos ht7
    simp only [Option.getD_some]
    intro hc
    have h3 : (1.0 : ℝ) * loadingTailVal t = 0 :=
      congrArg (fun c : Color => c.2.2) hc
    norm_num at h3
    linarith

/-- On a ring of at least the tail length, the loading frame has exactly
    seven non-black cells (one fewer than the tail length). -/
theorem loading_frame_nonblack_card (N : ℤ) (hN8 : 8 ≤ N) (p : ℤ) :
    Set.ncard
      {i : ℕ | (get_loading_frame (mkController N) p).getD i blackColor
          ≠ blackColor} = 7 := by
  have hN : 0 < N := by omega
  rw [loading_frame_nonblack_set N hN8 p, Set.ncard_image_of_injOn]
  · rw [show {t : ℕ | t < 7} = ↑(Finset.range 7) by ext; simp]
    rw [Set.ncard_coe_Finset, Finset.card_range]
  · intro a ha b hb hab
    simp only [Set.mem_setOf_eq] at ha hb
    have := emod_toNat_inj N hN
      (by rw [abs_lt]; constructor <;> (push_cast; omega)) hab
    omega

/-- The head cell of the loading frame is full cyan-blue. -/
theorem loading_frame_head (N : ℤ) (hN8 : 8 ≤ N) (p : ℤ) :
    (get_loading_frame (mkController N) p).getD ((p % N).toNat) blackColor
      = ((0 : ℝ), 0.5, 1.0) := by
  have hv := loading_frame_written N hN8 p (by norm_num : (0 : ℕ) < 8)
  rw [show p - ((0 : ℕ) : ℤ) = p by push_cast; ring] at hv
  rw [getD_eq_getElem?_getD, hv]
  simp [loadingTailVal_zero]

end LoadingFrameLemmas

/-! Projections of the constructed controller, and branch equations of the
two sequence-frame dispatchers. -/

theorem mk_num_leds (N : ℤ) : (mkController N).num_leds = N := rfl

theorem mk_loading_tail (N : ℤ) :
    (mkController N).loading_tail = (linspace 1 0 8).map Real.sqrt := rfl

theorem black_array_mk (N : ℤ) :
    black_array (mkController N) = List.replicate N.toNat blackColor := rfl

section DispatchLemmas

variable (c : LEDController) (step : ℚ)

theorem boot_frame_fill (h : step.den = 1) :
    get_boot_sequence_frame c ("fill") step
      = (List.range (step.num + 1).toNat).foldlM
          (fun cs i => setChecked cs i ((0 : ℝ), 0.2, 0.4)) (black_array c) := by
  unfold get_boot_sequence_frame
  rw [if_pos rfl, if_pos h]

theorem boot_frame_pulse :
    get_boot_sequence_frame c ("pulse") step
      = some (List.replicate c.num_leds.toNat
          ((0 : ℝ), 0.2 * (step : ℝ), 0.4 * (step : ℝ))) := by
  unfold get_boot_sequence_frame
  rw [if_neg (by decide), if_pos rfl]

theorem boot_frame_spin (h : step.den = 1) :
    get_boot_sequence_frame c ("spin") step
      = c.loading_tail.enum.foldlM
          (fun cs tb =>
            setChecked cs ((step.num + (tb.1 : ℤ)) % c.num_leds).toNat
              (0 * tb.2, 0.5 * tb.2, 1.0 * tb.2))
          (black_array c) := by
  unfold get_boot_sequence_frame
  rw [if_neg (by decide), if_neg (by decide), if_pos rfl, if_pos h]

theorem boot_frame_success (h : step.den = 1) :
    get_boot_sequence_frame c ("success") step
      = some ((List.range c.num_leds.toNat).foldl
          (fun cs (i : ℕ) =>
            if circular_distance c.num_leds (i : ℤ) (step.num % c.num_leds) < 8 then
              cs.set i
                (0, 1 - (circular_distance c.num_leds (i : ℤ)
                    (step.num % c.num_leds) : ℝ) / 8, 0)
            else cs)
          (black_array c)) := by
  unfold get_boot_sequence_frame
  rw [if_neg (by decide), if_neg (by decide), if_neg (by decide), if_pos rfl,
    if_pos h]

theorem boot_frame_final :
    get_boot_sequence_frame c ("final") step
      = some (List.replicate c.num_leds.toNat ((1.0 : ℝ), 1.0, 1.0)) := by
  unfold get_boot_sequence_frame
  rw [if_neg (by decide), if_neg (by decide), if_neg (by decide),
    if_neg (by decide), if_pos rfl]

theorem boot_frame_other (phase : String) (h1 : phase ≠ "fill")
    (h2 : phase ≠ "pulse") (h3 : phase ≠ "spin") (h4 : phase ≠ "success")
    (h5 : phase ≠ "final") :
    get_boot_sequence_frame c phase step = some (black_array c) := by
  unfold get_boot_sequence_frame
  rw [if_neg h1, if_neg h2, if_neg h3, if_neg h4, if_neg h5]

theorem shutdown_frame_spin (h : step.den = 1) :
    get_shutdown_sequence_frame c ("spin") step
      = c.loading_tail.enum.foldlM
          (fun cs tb =>
            setChecked cs ((step.num + (tb.1 : ℤ)) % c.num_leds).toNat
              (tb.2, 0, 0))
          (black_array c) := by
  unfold get_shutdown_sequence_frame
  rw [if_pos rfl, if_pos h]

theorem shutdown_frame_fade :
    get_shutdown_sequence_frame c ("fade") step
      = some (List.replicate c.num_leds.toNat ((step : ℝ) * 0.3, 0, 0)) := by
  unfold get_shutdown_sequence_frame
  rw [if_neg (by decide), if_pos rfl]

theorem shutdown_frame_other (phase : String) (h1 : phase ≠ "spin")
    (h2 : phase ≠ "fade") :
    get_shutdown_sequence_frame c phase step = some (black_array c) := by
  unfold get_shutdown_sequence_frame
  rw [if_neg h1, if_neg h2]

theorem boot_frame_fill_nonint (h : ¬ step.den = 1) :
    get_boot_sequence_frame c ("fill") step = none := by
  unfold get_boot_sequence_frame
  rw [if_pos rfl, if_neg h]

theorem boot_frame_spin_nonint (h : ¬ step.den = 1) :
    get_boot_sequence_frame c ("spin") step = none := by
  unfold get_boot_sequence_frame
  rw [if_neg (by decide), if_neg (by decide), if_pos rfl, if_neg h]

theorem boot_frame_success_nonint (h : ¬ step.den = 1) :
    get_boot_sequence_frame c ("success") step = none := by
  unfold get_boot_sequence_frame
  rw [if_neg (by decide), if_neg (by decide), if_neg (by decide), if_pos rfl,
    if_neg h]

theorem shutdown_frame_spin_nonint (h : ¬ step.den = 1) :
    get_shutdown_sequence_frame c ("spin") step = none := by
  unfold get_shutdown_sequence_frame
  rw [if_pos rfl, if_neg h]

end DispatchLemmas

/-! Generic structure of a comet fold over the enumerated tail, shared by the
loading frame and the two spin branches. -/

section TailFoldLemmas

/-- Write indices of the forward comet (base + offset) are distinct on rings
    of at least the tail length. -/
theorem add_comet_inj (N : ℤ) (hN8 : 8 ≤ N) (s : ℤ) :
    ∀ a b : ℕ, a < 8 → b < 8 →
      (((s + (a : ℤ)) % N)).toNat = (((s + (b : ℤ)) % N)).toNat → a = b := by
  intro a b ha hb h
  have := emod_toNat_inj N (by omega)
    (by rw [abs_lt]; constructor <;> (push_cast; omega)) h
  omega

/-- The spin branch of the boot sequence on the constructed controller:
    a successful forward comet fold of the eight cyan-blue cells. -/
theorem boot_spin_unfold (N : ℤ) (hN : 0 < N) (s : ℚ) (h : s.den = 1) :
    get_boot_sequence_frame (mkController N) ("spin") s
      = some (cometFold N (fun u => s.num + (u : ℤ))
          (fun b => (0 * b, 0.5 * b, 1.0 * b))) := by
  rw [boot_frame_spin _ _ h, mk_loading_tail, loading_tail_enum_eq,
    mk_num_leds, black_array_mk]
  exact foldlM_setChecked_eq_foldl loadingTailEnum
    (fun tb => ((s.num + (tb.1 : ℤ)) % N).toNat)
    (fun tb => ((0 : ℝ) * tb.2, 0.5 * tb.2, 1.0 * tb.2))
    (List.replicate N.toNat blackColor)
    (fun x hx => by
      simp only [List.length_replicate]
      exact emod_toNat_lt N hN _)

/-- The spin branch of the shutdown sequence on the constructed controller:
    a successful forward comet fold of the eight red cells. -/
theorem shutdown_spin_unfold (N : ℤ) (hN : 0 < N) (s : ℚ) (h : s.den = 1) :
    get_shutdown_sequence_frame (mkController N) ("spin") s
      = some (cometFold N (fun u => s.num + (u : ℤ))
          (fun b => (b, 0, 0))) := by
  rw [shutdown_frame_spin _ _ h, mk_loading_tail, loading_tail_enum_eq,
    mk_num_leds, black_array_mk]
  exact foldlM_setChecked_eq_foldl loadingTailEnum
    (fun tb => ((s.num + (tb.1 : ℤ)) % N).toNat)
    (fun tb => ((tb.2 : ℝ), 0, 0))
    (List.replicate N.toNat blackColor)
    (fun x hx => by
      simp only [List.length_replicate]
      exact emod_toNat_lt N hN _)

end TailFoldLemmas

/-! Claim theorems. -/

/-- C1: what the code actually does on the visualizer's shutdown Wipe phase at
    N = 24, step = 24: get_shutdown_sequence_frame has no wipe branch, so the
    request falls through to the all-black frame — not the specified frame
    with cells 0..23 white. -/
theorem C1_wipe_frame_is_black :
    get_shutdown_sequence_frame (mkController 24) ("wipe") 24
      = some (List.replicate 24 blackColor) := by
  rw [shutdown_frame_other (mkController 24) 24 ("wipe") (by decide) (by decide),
    black_array_mk]
  rfl

/-- C10: for every phase other than those explicitly dispatched (fill, pulse,
    spin, success, final for the boot sequence; spin, fade for the shutdown
    sequence), both dispatchers return the all-black frame of length num_leds
    rather than failing. -/
theorem C10_unknown_phase_black (c : LEDController) (phase : String) (step : ℚ) :
    (phase ≠ "fill" → phase ≠ "pulse" → phase ≠ "spin" → phase ≠ "success" →
      phase ≠ "final" →
      get_boot_sequence_frame c phase step = some (black_array c)) ∧
    (phase ≠ "spin" → phase ≠ "fade" →
      get_shutdown_sequence_frame c phase step = some (black_array c)) ∧
    (black_array c).length = c.num_leds.toNat := by
  refine ⟨?_, ?_, ?_⟩
  · intro h1 h2 h3 h4 h5
    exact boot_frame_other c step phase h1 h2 h3 h4 h5
  · intro h1 h2
    exact shutdown_frame_other c step phase h1 h2
  · simp [black_array]

/-- C10 witness: the shutdown pulse phase requested by the visualizer is not
    dispatched and yields the all-black frame. -/
theorem C10_witness :
    get_shutdown_sequence_frame (mkController 24) ("pulse") 0
      = some (black_array (mkController 24)) :=
  (C10_unknown_phase_black (mkController 24) ("pulse") 0).2.1
    (by decide) (by decide)

/-- C4 counterexample: on the freshly constructed, unpowered controller,
    requesting the steady-state loading mode does not fail with
    InvalidTransition: the call succeeds and the stored mode changes from off
    to loading. -/
theorem C4_counterexample :
    (mkController 24).is_powered = false ∧
    (mkController 24).current_mode = "off" ∧
    (set_modeE (mkController 24) ("loading")).isOk = true ∧
    set_modeE (mkController 24) ("loading")
      = Except.ok (set_mode (mkController 24) ("loading")) ∧
    (set_mode (mkController 24) ("loading")).current_mode = "loading" ∧
    (set_mode (mkController 24) ("loading")).is_powered = false :=
  ⟨rfl, rfl, rfl, rfl, rfl, rfl⟩

/-- C4 (amended): set_mode performs no power-state validation: selecting any
    mode in any power state succeeds (there is no InvalidTransition code
    path); the requested mode is recorded and every other field of the
    session state is unchanged. -/
theorem C4_set_mode_no_validation (c : LEDController) (mode : String) :
    ∃ c', set_modeE c mode = Except.ok c' ∧ c'.current_mode = mode ∧
      c'.is_powered = c.is_powered ∧ c'.num_leds = c.num_leds ∧
      c'.loading_tail = c.loading_tail ∧ c'.spin_tail = c.spin_tail :=
  ⟨set_mode c mode, rfl, rfl, rfl, rfl, rfl, rfl⟩

/-- C5 counterexample: construction with ring size 0 (and with a negative
    ring size) does not fail: there is no InvalidConfiguration check. -/
theorem C5_counterexample :
    (LEDController.init 0).isSome = true ∧
    (LEDController.init (-3)).isSome = true :=
  ⟨rfl, rfl⟩

/-- C5 (amended): construction never fails: for every integer ring size,
    including non-positive ones, init succeeds and yields a controller
    storing that size unchecked, with mode off, power off, and the 8- and
    6-sample easing tails. -/
theorem C5_init_never_fails (N : ℤ) :
    ∃ c, LEDController.init N = some c ∧ c.num_leds = N ∧
      c.current_mode = "off" ∧ c.is_powered = false ∧
      c.loading_tail.length = 8 ∧ c.spin_tail.length = 6 :=
  ⟨mkController N, rfl, rfl, rfl, rfl,
    by rw [mk_loading_tail, loading_tail_list_eq]; rfl,
    by rw [show (mkController N).spin_tail = (linspace 1 0 6).map Real.sqrt
        from rfl, spin_tail_list_eq]; rfl⟩

/-- C8: selecting the currently-active mode is a no-op: the controller state
    after set_mode equals the state before in every field (the controller
    holds no separate cancellation token; the whole state is preserved). -/
theorem C8_set_mode_idempotent (c : LEDController) (mode : String)
    (h : c.current_mode = mode) : set_mode c mode = c := by
  subst h
  rfl

/-- C8 witness: re-selecting the initial off mode leaves the freshly built
    controller unchanged. -/
theorem C8_witness : set_mode (mkController 24) ("off") = mkController 24 :=
  C8_set_mode_idempotent (mkController 24) ("off") rfl

/-- C6: each precomputed easing tail is exactly the sqrt samples over a
    linspace from 1 down to 0 inclusive (8 samples for the loading tail, 6
    for the spin tail), hence monotonically non-increasing with first
    element 1 and last element 0. -/
theorem C6_easing_tails (N : ℤ) :
    (mkController N).loading_tail = (linspace 1 0 8).map Real.sqrt ∧
    (mkController N).spin_tail = (linspace 1 0 6).map Real.sqrt ∧
    (mkController N).loading_tail.length = 8 ∧
    (mkController N).spin_tail.length = 6 ∧
    (mkController N).loading_tail.Chain' (fun a b => b ≤ a) ∧
    (mkController N).spin_tail.Chain' (fun a b => b ≤ a) ∧
    (mkController N).loading_tail.head? = some 1 ∧
    (mkController N).loading_tail.getLast? = some 0 ∧
    (mkController N).spin_tail.head? = some 1 ∧
    (mkController N).spin_tail.getLast? = some 0 := by
  have hs : (mkController N).spin_tail = (linspace 1 0 6).map Real.sqrt := rfl
  refine ⟨rfl, rfl, ?_, ?_, ?_, ?_, ?_, ?_, ?_, ?_⟩
  · rw [mk_loading_tail, loading_tail_list_eq]
    rfl
  · rw [hs, spin_tail_list_eq]
    rfl
  · rw [mk_loading_tail, loading_tail_list_eq]
    simp only [List.chain'_cons, List.chain'_singleton, and_true]
    refine ⟨?_, ?_, ?_, ?_, ?_, ?_, ?_⟩ <;> exact loadingTailVal_anti (by norm_num)
  · rw [hs, spin_tail_list_eq]
    simp only [List.chain'_cons, List.chain'_singleton, and_true]
    refine ⟨?_, ?_, ?_, ?_, ?_⟩ <;> exact spinTailVal_anti (by norm_num)
  · rw [mk_loading_tail, loading_tail_list_eq]
    simp [loadingTailVal_zero]
  · rw [mk_loading_tail, loading_tail_list_eq]
    simp [List.getLast?, loadingTailVal_seven]
  · rw [hs, spin_tail_list_eq]
    simp [spinTailVal_zero]
  · rw [hs, spin_tail_list_eq]
    simp [List.getLast?, spinTailVal_five]

/-- C7: the circular distance used by the boot success wave is symmetric and
    always lies in the interval [0, N/2]. -/
theorem C7_circular_distance (N a b : ℤ) (hN : 0 < N) :
    circular_distance N a b = circular_distance N b a ∧
    0 ≤ circular_distance N a b ∧
    circular_distance N a b ≤ N / 2 := by
  unfold circular_distance
  have hN0 : N ≠ 0 := by omega
  have h1 := Int.emod_nonneg (a - b) hN0
  have h2 := Int.emod_nonneg (b - a) hN0
  have h3 := Int.emod_lt_of_pos (a - b) hN
  have h4 := Int.emod_lt_of_pos (b - a) hN
  have hsum : ((a - b) % N + (b - a) % N) % N = 0 := by
    rw [← Int.add_emod]
    have hz : a - b + (b - a) = 0 := by ring
    rw [hz, Int.zero_emod]
  have hcase : (a - b) % N + (b - a) % N = 0 ∨
      (a - b) % N + (b - a) % N = N := by
    obtain ⟨m, hm⟩ := Int.dvd_of_emod_eq_zero hsum
    rcases lt_trichotomy m 0 with h | h | h
    · exfalso
      have hle : N * m ≤ N * (-1) :=
        mul_le_mul_of_nonneg_left (by omega) (by omega)
      have hneg : N * (-1) = -N := by ring
      omega
    · left
      rw [hm, h, mul_zero]
    · rcases lt_or_le 1 m with h2m | h2m
      · exfalso
        have hle : N * 2 ≤ N * m :=
          mul_le_mul_of_nonneg_left (by omega) (by omega)
        have h2N : N * 2 = N + N := by ring
        omega
      · right
        rw [hm, show m = 1 by omega, mul_one]
  refine ⟨min_comm _ _, ?_, ?_⟩ <;> omega

/-- C7 witness: at ring size 24 and cells 3 and 20 the distance is symmetric
    and within [0, 12]. -/
theorem C7_witness :
    (0 : ℤ) < 24 ∧
    (circular_distance 24 3 20 = circular_distance 24 20 3 ∧
      0 ≤ circular_distance 24 3 20 ∧ circular_distance 24 3 20 ≤ 24 / 2) :=
  ⟨by decide, C7_circular_distance 24 3 20 (by decide)⟩

/-- C3 counterexample: the fill branch of the boot sequence indexes the frame
    directly with no modulus, so at ring size 24 the step 24 frame fails with
    an index error instead of wrapping. -/
theorem C3_counterexample :
    get_boot_sequence_frame (mkController 24) ("fill") 24 = none := by
  rw [boot_frame_fill (mkController 24) 24 (by norm_num), black_array_mk]
  apply range_foldlM_setChecked_none
  norm_num

/-- C3 (amended): the spin branches wrap their cell indices modulo the ring
    size and are total over all integer steps, but the fill branch indexes
    cells 0..step directly: it succeeds exactly when step < N. -/
theorem C3_fill_domain (N : ℤ) (hN : 0 < N) (step : ℚ) (hstep : step.den = 1) :
    ((get_boot_sequence_frame (mkController N) ("fill") step).isSome
      ↔ step.num < N) ∧
    (get_boot_sequence_frame (mkController N) ("spin") step).isSome = true ∧
    (get_shutdown_sequence_frame (mkController N) ("spin") step).isSome = true := by
  refine ⟨?_, ?_, ?_⟩
  · rw [boot_frame_fill _ _ hstep, black_array_mk,
      range_foldlM_setChecked_isSome_iff]
    simp only [List.length_replicate]
    omega
  · rw [boot_spin_unfold N hN step hstep]
    rfl
  · rw [shutdown_spin_unfold N hN step hstep]
    rfl

/-- C3 witness: at ring size 24 the fill frame at the in-range step 5
    succeeds. -/
theorem C3_witness :
    (0 : ℤ) < 24 ∧ (5 : ℚ).den = 1 ∧
    ((get_boot_sequence_frame (mkController 24) ("fill") 5).isSome
      ↔ (5 : ℚ).num < 24) :=
  ⟨by decide, by norm_num, (C3_fill_domain 24 (by decide) 5 (by norm_num)).1⟩

/-- C2 counterexample: at N = 24, p = 0 the loading frame does not have
    exactly tailLength = 8 non-black cells: the t = 7 comet cell receives the
    zero last tail sample and is black, leaving 7 non-black cells. -/
theorem C2_counterexample :
    ¬ Set.ncard {i : ℕ |
        (get_loading_frame (mkController 24) 0).getD i blackColor ≠ blackColor}
      = 8 := by
  have h := loading_frame_nonblack_card 24 (by norm_num) 0
  omega

/-- C2 (amended): for every ring size N ≥ 8 (the tail length) and every
    integer position p, the loading frame has exactly tailLength − 1 = 7
    non-black cells — the t = 7 comet cell receives the zero last tail sample
    and stays black — the head cell at wrap(p) is full cyan-blue
    (0, 0.5, 1.0), the comet cell at wrap(p − t) holds cyan-blue scaled by
    the t-th tail sample, and consecutive tail samples are non-increasing. -/
theorem C2_loading_frame (N : ℤ) (hN8 : 8 ≤ N) (p : ℤ) :
    Set.ncard {i : ℕ |
        (get_loading_frame (mkController N) p).getD i blackColor ≠ blackColor}
      = 7 ∧
    (get_loading_frame (mkController N) p).getD ((p % N).toNat) blackColor
      = ((0 : ℝ), 0.5, 1.0) ∧
    (∀ t : ℕ, t < 8 →
      (get_loading_frame (mkController N) p).getD
          (((p - (t : ℤ)) % N).toNat) blackColor
        = (0 * loadingTailVal t, 0.5 * loadingTailVal t,
            1.0 * loadingTailVal t)) ∧
    (∀ t : ℕ, t + 1 < 8 → loadingTailVal (t + 1) ≤ loadingTailVal t) := by
  refine ⟨loading_frame_nonblack_card N hN8 p, loading_frame_head N hN8 p,
    ?_, ?_⟩
  · intro t ht
    rw [getD_eq_getElem?_getD, loading_frame_written N hN8 p ht]
    rfl
  · intro t _
    exact loadingTailVal_anti (by omega)

/-- C2 witness: at N = 24, p = 0 the head cell of the loading frame is full
    cyan-blue. -/
theorem C2_witness :
    (8 : ℤ) ≤ 24 ∧
    (get_loading_frame (mkController 24) 0).getD (((0 : ℤ) % 24).toNat)
        blackColor = ((0 : ℝ), 0.5, 1.0) :=
  ⟨by decide, (C2_loading_frame 24 (by decide) 0).2.1⟩

/-- C9: every frame operation on the constructed controller yields a frame of
    length num_leds — the steady-state frames always; the sequence
    dispatchers whenever they return a frame at all, and the fill branch does
    return one on its documented range 0 <= step < N — and every cell a
    branch does not explicitly write holds (0, 0, 0). -/
theorem C9_frame_invariants (N : ℤ) (hN : 0 < N) :
    (∀ p : ℤ, (get_loading_frame (mkController N) p).length = N.toNat) ∧
    (∀ p : ℤ, ∀ j : ℕ, j < N.toNat →
      (∀ t : ℕ, t < 8 → j ≠ ((p - (t : ℤ)) % N).toNat) →
      (get_loading_frame (mkController N) p).getD j blackColor = blackColor) ∧
    (∀ b : ℝ, (get_tracking_frame (mkController N) b).length = N.toNat) ∧
    (∀ b : ℝ, (get_error_frame (mkController N) b).length = N.toNat) ∧
    (∀ b : ℝ, ∀ draws : ℕ → ℝ,
      (get_success_frame (mkController N) b draws).length = N.toNat) ∧
    (∀ phase : String, ∀ step : ℚ, ∀ r : List Color,
      get_boot_sequence_frame (mkController N) phase step = some r →
      r.length = N.toNat) ∧
    (∀ phase : String, ∀ step : ℚ, ∀ r : List Color,
      get_shutdown_sequence_frame (mkController N) phase step = some r →
      r.length = N.toNat) ∧
    (∀ step : ℚ, step.den = 1 → 0 ≤ step.num → step.num < N →
      ∃ r, get_boot_sequence_frame (mkController N) ("fill") step = some r ∧
        (∀ i : ℕ, i < (step.num + 1).toNat →
          r.getD i blackColor = ((0 : ℝ), 0.2, 0.4)) ∧
        (∀ j : ℕ, (step.num + 1).toNat ≤ j → j < N.toNat →
          r.getD j blackColor = blackColor)) ∧
    (∀ step : ℚ, step.den = 1 →
      ∃ r, get_boot_sequence_frame (mkController N) ("spin") step = some r ∧
        ∀ j : ℕ, j < N.toNat →
          (∀ t : ℕ, t < 8 → j ≠ ((step.num + (t : ℤ)) % N).toNat) →
          r.getD j blackColor = blackColor) ∧
    (∀ step : ℚ, step.den = 1 →
      ∃ r, get_shutdown_sequence_frame (mkController N) ("spin") step
          = some r ∧
        ∀ j : ℕ, j < N.toNat →
          (∀ t : ℕ, t < 8 → j ≠ ((step.num + (t : ℤ)) % N).toNat) →
          r.getD j blackColor = blackColor) ∧
    (∀ step : ℚ, step.den = 1 →
      ∃ r, get_boot_sequence_frame (mkController N) ("success") step
          = some r ∧
        ∀ j : ℕ, j < N.toNat →
          ¬ circular_distance N (j : ℤ) (step.num % N) < 8 →
          r.getD j blackColor = blackColor) := by
  refine ⟨loading_frame_length N, ?_, ?_, ?_, ?_, ?_, ?_, ?_, ?_, ?_, ?_⟩
  · intro p j hj h
    rw [getD_eq_getElem?_getD, loading_frame_unwritten N hN p j hj h]
    rfl
  · intro b
    simp [get_tracking_frame, mk_num_leds]
  · intro b
    simp [get_error_frame, mk_num_leds]
  · intro b draws
    simp [get_success_frame, mk_num_leds]
  · intro phase step r h
    by_cases h1 : phase = "fill"
    · subst h1
      by_cases hd : step.den = 1
      · rw [boot_frame_fill _ _ hd, black_array_mk] at h
        have hlen := foldlM_setChecked_length _ (fun i => i)
          (fun _ => ((0 : ℝ), 0.2, 0.4)) _ _ h
        simpa using hlen
      · rw [boot_frame_fill_nonint _ _ hd] at h
        exact Option.noConfusion h
    · by_cases h2 : phase = "pulse"
      · subst h2
        rw [boot_frame_pulse] at h
        cases h
        simp [mk_num_leds]
      · by_cases h3 : phase = "spin"
        · subst h3
          by_cases hd : step.den = 1
          · rw [boot_spin_unfold N hN step hd] at h
            cases h
            exact cometFold_length N _ _
          · rw [boot_frame_spin_nonint _ _ hd] at h
            exact Option.noConfusion h
        · by_cases h4 : phase = "success"
          · subst h4
            by_cases hd : step.den = 1
            · rw [boot_frame_success _ _ hd, mk_num_leds, black_array_mk] at h
              cases h
              rw [foldl_length_invariant]
              · simp
              · intro cs x
                split <;> simp
            · rw [boot_frame_success_nonint _ _ hd] at h
              exact Option.noConfusion h
          · by_cases h5 : phase = "final"
            · subst h5
              rw [boot_frame_final] at h
              cases h
              simp [mk_num_leds]
            · rw [boot_frame_other _ _ _ h1 h2 h3 h4 h5] at h
              cases h
              simp [black_array, mk_num_leds]
  · intro phase step r h
    by_cases h1 : phase = "spin"
    · subst h1
      by_cases hd : step.den = 1
      · rw [shutdown_spin_unfold N hN step hd] at h
        cases h
        exact cometFold_length N _ _
      · rw [shutdown_frame_spin_nonint _ _ hd] at h
        exact Option.noConfusion h
    · by_cases h2 : phase = "fade"
      · subst h2
        rw [shutdown_frame_fade] at h
        cases h
        simp [mk_num_leds]
      · rw [shutdown_frame_other _ _ _ h1 h2] at h
        cases h
        simp [black_array, mk_num_leds]
  · intro step hden h0 hlt
    rw [boot_frame_fill _ _ hden, black_array_mk]
    rw [range_foldlM_setChecked_eq _ _ _
      (by simp only [List.length_replicate]; omega)]
    refine ⟨_, rfl, ?_, ?_⟩
    · intro i hik
      rw [getD_eq_getElem?_getD,
        range_foldl_set_get _ _ _ i hik
          (by simp only [List.length_replicate]; omega)]
      rfl
    · intro j hjk hjN
      rw [getD_eq_getElem?_getD, range_foldl_set_get_ge _ _ _ j hjk,
        List.getElem?_replicate_of_lt hjN]
      rfl
  · intro step hden
    rw [boot_spin_unfold N hN step hden]
    refine ⟨_, rfl, ?_⟩
    intro j hj hnw
    rw [getD_eq_getElem?_getD,
      cometFold_unwritten N (fun u => step.num + (u : ℤ))
        (fun b => (0 * b, 0.5 * b, 1.0 * b)) j hj hnw]
    rfl
  · intro step hden
    rw [shutdown_spin_unfold N hN step hden]
    refine ⟨_, rfl, ?_⟩
    intro j hj hnw
    rw [getD_eq_getElem?_getD,
      cometFold_unwritten N (fun u => step.num + (u : ℤ))
        (fun b => (b, 0, 0)) j hj hnw]
    rfl
  · intro step hden
    rw [boot_frame_success _ _ hden, mk_num_leds, black_array_mk]
    refine ⟨_, rfl, ?_⟩
    intro j hj hdist
    rw [getD_eq_getElem?_getD, foldl_get_invariant, List.getElem?_replicate_of_lt hj]
    · rfl
    · intro cs x hx
      by_cases hd : circular_distance N (x : ℤ) (step.num % N) < 8
      · rw [if_pos hd]
        refine List.getElem?_set_ne ?_
        intro hxj
        subst hxj
        exact hdist hd
      · rw [if_neg hd]

/-- C9 witness: at ring size 24 the tracking frame at brightness 1 has 24
    cells. -/
theorem C9_witness :
    (0 : ℤ) < 24 ∧
    (get_tracking_frame (mkController 24) 1).length = (24 : ℤ).toNat :=
  ⟨by decide, (C9_frame_invariants 24 (by decide)).2.2.1 1⟩
